import Mathlib

/-!
Verification of the nodelabs auto-messaging pipeline.

Shallow embedding of the scheduling-record store (`src/models/AutoMessage.js`),
the conversation directory (`src/models/Conversation.js`), the consumer
(`src/services/messageConsumer.js`), the queue wrapper
(`src/config/rabbitmq.js`) and the cron planner/scanner/sweep
(`src/services/cronService.js`).  Timestamps are modelled as `Nat`
milliseconds, Mongo ObjectIds as `Nat`, and the random draws of
`Math.random()` as explicit parameters.
-/

namespace Nodelabs

/-- One scheduling record of the `AutoMessage` mongoose schema
(`src/models/AutoMessage.js`, fields lines 3-57).  `createdAt` is the
`timestamps: true` creation stamp used by the retention sweep. -/
structure AutoMessage where
  sender : Nat
  receiver : Nat
  content : String
  sendDate : Nat
  isQueued : Bool := false
  queuedAt : Option Nat := none
  isSent : Bool := false
  sentAt : Option Nat := none
  messageId : Option Nat := none
  error : Option String := none
  retryCount : Nat := 0
  createdAt : Nat := 0
deriving DecidableEq

/-- `markAsQueued` (AutoMessage.js lines 80-84): unconditionally sets
`isQueued := true` and stamps `queuedAt` with the current time, then saves. -/
def markAsQueued (m : AutoMessage) (now : Nat) : AutoMessage :=
  { m with isQueued := true, queuedAt := some now }

/-- `markAsSent` (AutoMessage.js lines 87-92): unconditionally sets
`isSent := true`, stamps `sentAt`, and records the materialized message id. -/
def markAsSent (m : AutoMessage) (mid : Nat) (now : Nat) : AutoMessage :=
  { m with isSent := true, sentAt := some now, messageId := some mid }

/-- `incrementRetry` (AutoMessage.js lines 95-101): adds one to `retryCount`
and overwrites `error` only when an error argument is supplied. -/
def incrementRetry (m : AutoMessage) (err : Option String) : AutoMessage :=
  { m with retryCount := m.retryCount + 1,
           error := match err with
                    | some e => some e
                    | none => m.error }

/-- The filter of `getMessagesForQueuing` (AutoMessage.js lines 104-115):
`sendDate <= now`, `isQueued: false`, `isSent: false`, `retryCount < 3`. -/
def readyForQueuing (now : Nat) (m : AutoMessage) : Bool :=
  decide (m.sendDate ≤ now) && !m.isQueued && !m.isSent && decide (m.retryCount < 3)

/-- `getMessagesForQueuing` over a store modelled as a list of records. -/
def getMessagesForQueuing (db : List AutoMessage) (now : Nat) : List AutoMessage :=
  db.filter (readyForQueuing now)

/-- Milliseconds in one day. -/
def msPerDay : Nat := 86400000

/-- `cleanupOldMessages` (cronService.js lines 157-175): deletes the records
with `createdAt < now - 30 days` and `isSent: true`; the survivors are
returned.  `thirtyDaysAgo` is `setDate(getDate() - 30)`, i.e. 30 days in
milliseconds. -/
def cleanupOldMessages (db : List AutoMessage) (now : Nat) : List AutoMessage :=
  let thirtyDaysAgo := now - 30 * msPerDay
  db.filter (fun m => !(decide (m.createdAt < thirtyDaysAgo) && m.isSent))

/-- `getRandomSendDate` (cronService.js lines 43-49).  The draws
`Math.floor(Math.random() * 24)` and `Math.floor(Math.random() * 60)` are the
parameters `hoursRand < 24` and `minutesRand < 60`; the code adds
`hoursRand + 1` hours and `minutesRand` minutes to `now`. -/
def getRandomSendDate (now hoursRand minutesRand : Nat) : Nat :=
  now + (hoursRand + 1) * 3600000 + minutesRand * 60000

/-- A conversation document of the `Conversation` mongoose schema
(`src/models/Conversation.js`, fields lines 3-29). -/
structure Conversation where
  id : Nat
  participants : List Nat
  lastMessage : Option Nat := none
  lastActivity : Nat
  isActive : Bool := true
deriving DecidableEq

/-- A materialized chat message of the `Message` mongoose schema
(`src/models/Message.js`). -/
structure Message where
  id : Nat
  sender : Nat
  receiver : Nat
  conversation : Nat
  content : String
  messageType : String
deriving DecidableEq

/-- The conversation collection together with the id counter Mongo assigns to
newly created documents. -/
structure ConvStore where
  conversations : List Conversation
  nextConvId : Nat
deriving DecidableEq

/-- The `findOne` of `findOrCreateConversation` (Conversation.js lines 46-50):
the first active conversation whose `participants` contain both users
(`$all: [userId1, userId2], isActive: true`). -/
def findConversation (db : List Conversation) (u1 u2 : Nat) :
    Option Conversation :=
  db.find? (fun c =>
    c.participants.contains u1 && c.participants.contains u2 && c.isActive)

/-- The `create` branch of `findOrCreateConversation` (lines 53-62):
a new active conversation with `participants: [userId1, userId2]`. -/
def createConversation (s : ConvStore) (now u1 u2 : Nat) :
    Conversation × ConvStore :=
  let c : Conversation :=
    { id := s.nextConvId, participants := [u1, u2], lastMessage := none,
      lastActivity := now, isActive := true }
  (c, { conversations := s.conversations ++ [c], nextConvId := s.nextConvId + 1 })

/-- `findOrCreateConversation` (Conversation.js lines 43-68): a `findOne`
followed, when nothing was found, by a separate `create`.  The two store
operations are not atomic and no unique index covers `participants`
(init-mongo.js creates only non-unique indexes on conversations). -/
def findOrCreateConversation (s : ConvStore) (now u1 u2 : Nat) :
    Conversation × ConvStore :=
  match findConversation s.conversations u1 u2 with
  | some c => (c, s)
  | none => createConversation s now u1 u2

/-- `updateLastActivity` (Conversation.js lines 71-77): stamps `lastActivity`
and records `lastMessage` when a message id is passed. -/
def updateLastActivity (c : Conversation) (now : Nat) (mid : Option Nat) :
    Conversation :=
  { c with lastActivity := now,
           lastMessage := match mid with
                          | some m => some m
                          | none => c.lastMessage }

/-- Persisting a mutated conversation document back into the collection
(the `save()` at the end of `updateLastActivity`). -/
def saveConversation (s : ConvStore) (c : Conversation) : ConvStore :=
  { s with conversations :=
      s.conversations.map (fun d => if d.id = c.id then c else d) }

/-- One valid interleaving of two overlapping `findOrCreateConversation`
calls: both `findOne` reads happen against the same store snapshot before
either `create` executes.  The source puts no atomicity between the two
operations, so this schedule is reachable under concurrent deliveries. -/
def raceFindOrCreate (s : ConvStore) (now a1 b1 a2 b2 : Nat) : ConvStore :=
  let r1 := findConversation s.conversations a1 b1
  let r2 := findConversation s.conversations a2 b2
  let s1 := match r1 with
            | some _ => s
            | none => (createConversation s now a1 b1).2
  match r2 with
  | some _ => s1
  | none => (createConversation s1 now a2 b2).2

/-- Number of active conversations in the store containing both users. -/
def countActivePair (s : ConvStore) (u1 u2 : Nat) : Nat :=
  (s.conversations.filter (fun c =>
    c.participants.contains u1 && c.participants.contains u2 && c.isActive)).length

/-- Lookup by id in the AutoMessage collection (`findById`). -/
def findAuto : List (Nat × AutoMessage) → Nat → Option AutoMessage
  | [], _ => none
  | (j, r) :: rest, i => if j = i then some r else findAuto rest i

/-- Overwrite the record stored under id `i` (the `save()` of a mutated
document). -/
def setAutoL (l : List (Nat × AutoMessage)) (i : Nat) (r : AutoMessage) :
    List (Nat × AutoMessage) :=
  l.map (fun p => if p.1 = i then (i, r) else p)

/-- The persistent state the consumer touches: the AutoMessage collection
(keyed by id), the Message collection, the conversation store, the id Mongo
will assign to the next created Message, and the current clock. -/
structure World where
  autoMessages : List (Nat × AutoMessage)
  messages : List Message
  convStore : ConvStore
  nextMessageId : Nat
  now : Nat
deriving DecidableEq

/-- `AutoMessage.findById` against the world. -/
def lookupAuto (w : World) (i : Nat) : Option AutoMessage :=
  findAuto w.autoMessages i

/-- Saving a mutated AutoMessage document back into the world. -/
def setAuto (w : World) (i : Nat) (r : AutoMessage) : World :=
  { w with autoMessages := setAutoL w.autoMessages i r }

/-- The queue payload published by `queueReadyMessages`
(cronService.js lines 127-134). -/
structure QueuePayload where
  autoMessageId : Nat
  senderId : Nat
  receiverId : Nat
  content : String
  senderUsername : String
  receiverUsername : String
deriving DecidableEq

/-- The success path of `processAutoMessage`
(messageConsumer.js lines 9-58): find-or-create the conversation, persist a
new Message with `messageType: 'auto'`, update the conversation's last
activity, emit the socket event (no persistent effect), then `findById` the
scheduling record and mark it sent only when it exists. -/
def processAutoMessage (w : World) (p : QueuePayload) : World :=
  let fc := findOrCreateConversation w.convStore w.now p.senderId p.receiverId
  let conversation := fc.1
  let message : Message :=
    { id := w.nextMessageId, sender := p.senderId, receiver := p.receiverId,
      conversation := conversation.id, content := p.content,
      messageType := "auto" }
  let w1 : World :=
    { w with convStore := fc.2, messages := w.messages ++ [message],
             nextMessageId := w.nextMessageId + 1 }
  let conversation2 := updateLastActivity conversation w.now (some message.id)
  let w2 : World := { w1 with convStore := saveConversation w1.convStore conversation2 }
  match lookupAuto w2 p.autoMessageId with
  | some am => setAuto w2 p.autoMessageId (markAsSent am message.id w.now)
  | none => w2

/-- The catch block of `processAutoMessage` (messageConsumer.js lines 60-74):
`findById` the scheduling record and, when it exists, increment its retry
count recording the error message; then the error is re-thrown. -/
def handleProcessingError (w : World) (p : QueuePayload) (errMsg : String) :
    World :=
  match lookupAuto w p.autoMessageId with
  | some am => setAuto w p.autoMessageId (incrementRetry am (some errMsg))
  | none => w

/-- Whether the broker acknowledged or negatively acknowledged a delivery. -/
inductive DeliveryResult where
  | ack
  | nackRequeue
deriving DecidableEq

/-- One delivery as performed by `consumeFromQueue`
(rabbitmq.js lines 59-74).  `fault` injects an exception thrown by the
handler body ahead of its persistent effects (carrying `error.message`): on
success the message is acked, on a throw the catch path runs and the message
is nacked with `requeue = true`. -/
def consumeStep (w : World) (p : QueuePayload) (fault : Option String) :
    World × DeliveryResult :=
  match fault with
  | none => (processAutoMessage w p, DeliveryResult.ack)
  | some e => (handleProcessingError w p e, DeliveryResult.nackRequeue)

/-- One broker step on the queue: deliver the head payload; an ack removes
it, a nack with `requeue = true` keeps it queued for redelivery. -/
def queueStep (q : List QueuePayload) (w : World) (fault : Option String) :
    List QueuePayload × World :=
  match q with
  | [] => ([], w)
  | p :: rest =>
    match consumeStep w p fault with
    | (w1, DeliveryResult.ack) => (rest, w1)
    | (w1, DeliveryResult.nackRequeue) => (p :: rest, w1)

/-- The pair-building loop of `createAutoMessages` (cronService.js lines
68-76): walk the shuffled user list two at a time, pairing each element with
its successor; a trailing single element forms no pair. -/
def collectPairs {α : Type} : List α → List (α × α)
  | a :: b :: rest => (a, b) :: collectPairs rest
  | _ => []

/-- The pair list of `createAutoMessages` including the wrap-around step
(cronService.js lines 78-84): when the user count is odd, one extra pair of
the last and the first user of the shuffled list is appended. -/
def buildPairs {α : Type} (shuffledUsers : List α) : List (α × α) :=
  let pairs := collectPairs shuffledUsers
  if shuffledUsers.length % 2 ≠ 0 then
    match shuffledUsers.getLast?, shuffledUsers.head? with
    | some lastUser, some firstUser => pairs ++ [(lastUser, firstUser)]
    | _, _ => pairs
  else pairs

/-- The record-construction map of `createAutoMessages` (cronService.js
lines 86-92): each pair becomes a scheduling record whose content and send
date come from fresh random draws; `contentOf`/`sendDateOf` give the draw
outcomes for the pair at each position. -/
def toRecords (contentOf : Nat → String) (sendDateOf : Nat → Nat)
    (createdAt : Nat) : Nat → List (Nat × Nat) → List AutoMessage
  | _, [] => []
  | i, p :: rest =>
    { sender := p.1, receiver := p.2, content := contentOf i,
      sendDate := sendDateOf i, createdAt := createdAt } ::
    toRecords contentOf sendDateOf createdAt (i + 1) rest

/-- `createAutoMessages` (cronService.js lines 52-106).  `activeUsers` is
the outcome of `shuffleArray` on the active-user set — a permutation, hence
an arbitrary duplicate-free list; with fewer than 2 users the job returns
without creating records, otherwise every pair is turned into a record and
bulk-inserted. -/
def createAutoMessages (activeUsers : List Nat) (contentOf : Nat → String)
    (sendDateOf : Nat → Nat) (now : Nat) : List AutoMessage :=
  if activeUsers.length < 2 then []
  else toRecords contentOf sendDateOf now 0 (buildPairs activeUsers)

/-- In how many scheduling records does user `u` appear (as sender or
receiver)? -/
def appearCount (u : Nat) (records : List AutoMessage) : Nat :=
  (records.filter (fun m => m.sender == u || m.receiver == u)).length

/-- In how many pairs does user `u` appear? -/
def pairCount (u : Nat) (ps : List (Nat × Nat)) : Nat :=
  (ps.filter (fun p => p.1 == u || p.2 == u)).length

/-- All users mentioned by a pair list, pair by pair. -/
def pairElems {α : Type} : List (α × α) → List α
  | [] => []
  | p :: rest => p.1 :: p.2 :: pairElems rest

/-- A record already promoted by the scanner: queued at time 5, not yet sent. -/
def queuedRecord : AutoMessage :=
  { sender := 1, receiver := 2, content := "Hey!", sendDate := 0,
    isQueued := true, queuedAt := some 5, createdAt := 0 }

/-- A record already delivered: sent at time 7 with message 9. -/
def sentRecord : AutoMessage :=
  { sender := 1, receiver := 2, content := "Hey!", sendDate := 0,
    isQueued := true, queuedAt := some 5, isSent := true, sentAt := some 7,
    messageId := some 9, createdAt := 0 }

/-- A record that exhausted the retry bound while queued. -/
def exhaustedRecord : AutoMessage :=
  { queuedRecord with retryCount := 3 }

/-- The payload the scanner publishes for record 1. -/
def samplePayload : QueuePayload :=
  { autoMessageId := 1, senderId := 10, receiverId := 20, content := "Hey!",
    senderUsername := "alice", receiverUsername := "bob" }

/-- A payload whose scheduling record does not exist in the store. -/
def missingPayload : QueuePayload :=
  { samplePayload with autoMessageId := 2 }

/-- A fresh world holding the queued record 1 and nothing else. -/
def consumerWorld : World :=
  { autoMessages := [(1, queuedRecord)], messages := [],
    convStore := { conversations := [], nextConvId := 0 },
    nextMessageId := 0, now := 1000 }

/-- A world holding record 1 with its retry bound already reached. -/
def exhaustedWorld : World :=
  { autoMessages := [(1, exhaustedRecord)], messages := [],
    convStore := { conversations := [], nextConvId := 0 },
    nextMessageId := 0, now := 2000 }

end Nodelabs

namespace Nodelabs

/-- C10: `incrementRetry` increases `retryCount` by exactly one and leaves
`sender`, `receiver`, `content`, `sendDate`, `isQueued`, `queuedAt`, `isSent`,
`sentAt` and `messageId` unchanged; called without an error argument it also
leaves the stored `error` field unchanged. -/
theorem incrementRetry_frame (m : AutoMessage) (err : Option String) :
    (incrementRetry m err).retryCount = m.retryCount + 1 ∧
    (incrementRetry m err).sender = m.sender ∧
    (incrementRetry m err).receiver = m.receiver ∧
    (incrementRetry m err).content = m.content ∧
    (incrementRetry m err).sendDate = m.sendDate ∧
    (incrementRetry m err).isQueued = m.isQueued ∧
    (incrementRetry m err).queuedAt = m.queuedAt ∧
    (incrementRetry m err).isSent = m.isSent ∧
    (incrementRetry m err).sentAt = m.sentAt ∧
    (incrementRetry m err).messageId = m.messageId ∧
    (incrementRetry m none).error = m.error := by
  refine ⟨rfl, rfl, rfl, rfl, rfl, rfl, rfl, rfl, rfl, rfl, rfl⟩

/-- C7: for every outcome of the two random draws, the send date lies
strictly in the future, at least one hour ahead, and strictly below
25 hours ahead of the creation time. -/
theorem getRandomSendDate_window (now hoursRand minutesRand : Nat)
    (h1 : hoursRand < 24) (h2 : minutesRand < 60) :
    now < getRandomSendDate now hoursRand minutesRand ∧
    now + 3600000 ≤ getRandomSendDate now hoursRand minutesRand ∧
    getRandomSendDate now hoursRand minutesRand < now + 25 * 3600000 := by
  unfold getRandomSendDate
  omega

/-- Witness: the window theorem applied at a concrete draw. -/
theorem getRandomSendDate_window_witness :
    1000 < getRandomSendDate 1000 23 59 ∧
    1000 + 3600000 ≤ getRandomSendDate 1000 23 59 ∧
    getRandomSendDate 1000 23 59 < 1000 + 25 * 3600000 :=
  getRandomSendDate_window 1000 23 59 (by decide) (by decide)

/-- C2 counterexample: `markAsQueued` applied to `queuedRecord`, a record that
is already queued (not `Pending`), is not a no-op — it overwrites `queuedAt`
with the new time; likewise `markAsSent` applied to `sentRecord`, a record
that is already sent (not `Queued`), overwrites `sentAt` and `messageId`. -/
theorem markAsQueued_not_noop_on_queued :
    markAsQueued queuedRecord 10 ≠ queuedRecord ∧
    (markAsQueued queuedRecord 10).queuedAt = some 10 ∧
    markAsSent sentRecord 11 12 ≠ sentRecord ∧
    (markAsSent sentRecord 11 12).sentAt = some 12 ∧
    (markAsSent sentRecord 11 12).messageId = some 11 := by
  refine ⟨by decide, rfl, by decide, rfl, rfl⟩

/-- C2 amended: `markAsQueued` and `markAsSent` are unconditional writes.
For every record, whatever its current state, `markAsQueued` sets
`isQueued := true` and overwrites `queuedAt`, and `markAsSent` sets
`isSent := true` and overwrites `sentAt` and `messageId`; no source-state
check is performed, so neither transition is rejected and a record already
`Queued` is promoted again (its `queuedAt` is overwritten). -/
theorem mark_transitions_unconditional (m : AutoMessage) (now mid : Nat) :
    (markAsQueued m now).isQueued = true ∧
    (markAsQueued m now).queuedAt = some now ∧
    (markAsQueued m now).isSent = m.isSent ∧
    (markAsQueued m now).retryCount = m.retryCount ∧
    (markAsSent m mid now).isSent = true ∧
    (markAsSent m mid now).sentAt = some now ∧
    (markAsSent m mid now).messageId = some mid ∧
    (markAsSent m mid now).isQueued = m.isQueued ∧
    (markAsSent m mid now).retryCount = m.retryCount := by
  refine ⟨rfl, rfl, rfl, rfl, rfl, rfl, rfl, rfl, rfl⟩

/-- C4: the scanner query returns exactly the stored records with
`sendDate ≤ now`, not queued, not sent and `retryCount < 3`; in particular a
record with `retryCount ≥ 3`, or already queued, or already sent, is never
returned. -/
theorem getMessagesForQueuing_spec (db : List AutoMessage) (now : Nat)
    (m : AutoMessage) :
    (m ∈ getMessagesForQueuing db now ↔
      m ∈ db ∧ m.sendDate ≤ now ∧ m.isQueued = false ∧ m.isSent = false ∧
        m.retryCount < 3) ∧
    (3 ≤ m.retryCount ∨ m.isQueued = true ∨ m.isSent = true →
      m ∉ getMessagesForQueuing db now) := by
  constructor
  · simp only [getMessagesForQueuing, readyForQueuing, List.mem_filter,
      Bool.and_eq_true, Bool.not_eq_true', decide_eq_true_eq]
    tauto
  · intro h hmem
    have hc : m ∈ db ∧ m.sendDate ≤ now ∧ m.isQueued = false ∧
        m.isSent = false ∧ m.retryCount < 3 := by
      simpa only [getMessagesForQueuing, readyForQueuing, List.mem_filter,
        Bool.and_eq_true, Bool.not_eq_true', decide_eq_true_eq, and_assoc]
        using hmem
    rcases h with h | h | h
    · omega
    · rw [hc.2.2.1] at h; exact Bool.false_ne_true h
    · rw [hc.2.2.2.1] at h; exact Bool.false_ne_true h

/-- Witness: the query spec applied to a one-record store — the already queued
record `queuedRecord` is excluded. -/
theorem getMessagesForQueuing_spec_witness :
    queuedRecord ∉ getMessagesForQueuing [queuedRecord] 100 :=
  (getMessagesForQueuing_spec [queuedRecord] 100 queuedRecord).2
    (Or.inr (Or.inl rfl))

/-- C8: the retention sweep keeps exactly the records that are not
(`isSent` and created before `now - 30` days); hence a sent record 31 days
old is deleted, any record at most 30 days old is retained, and a record
that is not sent is retained regardless of age. -/
theorem cleanupOldMessages_spec (db : List AutoMessage) (now : Nat)
    (m : AutoMessage) :
    (m ∈ cleanupOldMessages db now ↔
      m ∈ db ∧ ¬(m.createdAt < now - 30 * msPerDay ∧ m.isSent = true)) ∧
    (m ∈ db → m.isSent = true → m.createdAt + 31 * msPerDay ≤ now →
      m ∉ cleanupOldMessages db now) ∧
    (m ∈ db → now ≤ m.createdAt + 30 * msPerDay →
      m ∈ cleanupOldMessages db now) ∧
    (m ∈ db → m.isSent = false → m ∈ cleanupOldMessages db now) := by
  have hp : ∀ x : AutoMessage,
      ((!(decide (x.createdAt < now - 30 * msPerDay) && x.isSent)) = true) ↔
        ¬(x.createdAt < now - 30 * msPerDay ∧ x.isSent = true) := by
    intro x
    cases hx : x.isSent <;> simp [hx]
  have hiff : m ∈ cleanupOldMessages db now ↔
      m ∈ db ∧ ¬(m.createdAt < now - 30 * msPerDay ∧ m.isSent = true) := by
    simp only [cleanupOldMessages, List.mem_filter]
    rw [hp m]
  refine ⟨hiff, ?_, ?_, ?_⟩
  · intro hdb hs hage hmem
    have h := (hiff.mp hmem).2
    have hms : msPerDay = 86400000 := rfl
    exact h ⟨by omega, hs⟩
  · intro hdb hage
    refine hiff.mpr ⟨hdb, ?_⟩
    intro hc
    have hc1 := hc.1
    have hms : msPerDay = 86400000 := rfl
    omega
  · intro hdb hs
    refine hiff.mpr ⟨hdb, ?_⟩
    intro hc
    rw [hs] at hc
    exact Bool.false_ne_true hc.2

/-- Overwriting the record stored under an existing id makes the lookup of
that id return the new record. -/
theorem findAuto_setAutoL_self (l : List (Nat × AutoMessage)) (i : Nat)
    (r m : AutoMessage) (h : findAuto l i = some m) :
    findAuto (setAutoL l i r) i = some r := by
  induction l with
  | nil => simp [findAuto] at h
  | cons p rest ih =>
    obtain ⟨j, q⟩ := p
    simp only [setAutoL, List.map_cons] at *
    by_cases hj : j = i
    · rw [if_pos hj]
      simp [findAuto]
    · rw [if_neg hj]
      simp only [findAuto, if_neg hj] at h ⊢
      exact ih h

/-- The success path of the consumer appends exactly one message and, when
the scheduling record exists, overwrites it with its `markAsSent` image. -/
theorem processAutoMessage_found (w : World) (p : QueuePayload)
    (am : AutoMessage) (h : lookupAuto w p.autoMessageId = some am) :
    (processAutoMessage w p).messages.length = w.messages.length + 1 ∧
    lookupAuto (processAutoMessage w p) p.autoMessageId =
      some (markAsSent am w.nextMessageId w.now) := by
  unfold lookupAuto at h
  simp only [processAutoMessage, lookupAuto, setAuto]
  rw [show ({ w with
      convStore := saveConversation
        (findOrCreateConversation w.convStore w.now p.senderId p.receiverId).2
        (updateLastActivity
          (findOrCreateConversation w.convStore w.now p.senderId p.receiverId).1
          w.now (some w.nextMessageId)),
      messages := w.messages ++
        [{ id := w.nextMessageId, sender := p.senderId, receiver := p.receiverId,
           conversation := (findOrCreateConversation w.convStore w.now
             p.senderId p.receiverId).1.id,
           content := p.content, messageType := "auto" }],
      nextMessageId := w.nextMessageId + 1 } : World).autoMessages
    = w.autoMessages from rfl, h]
  exact ⟨by simp, findAuto_setAutoL_self w.autoMessages p.autoMessageId _ am h⟩

/-- The found conversation is a member of the resulting store. -/
theorem findOrCreateConversation_mem (s : ConvStore) (now u1 u2 : Nat) :
    (findOrCreateConversation s now u1 u2).1 ∈
      (findOrCreateConversation s now u1 u2).2.conversations := by
  unfold findOrCreateConversation
  cases hfc : findConversation s.conversations u1 u2 with
  | some c =>
    simpa using List.mem_of_find?_eq_some hfc
  | none =>
    simp [createConversation]

/-- Saving a conversation that replaces a stored one with the same id puts
the saved document into the collection. -/
theorem saveConversation_mem (s : ConvStore) (c c2 : Conversation)
    (hc : c ∈ s.conversations) (hid : c2.id = c.id) :
    c2 ∈ (saveConversation s c2).conversations := by
  unfold saveConversation
  have hm := List.mem_map_of_mem (fun d => if d.id = c2.id then c2 else d) hc
  simpa [hid] using hm

/-- C1 counterexample: redelivering the payload of queued record 1 to a
fresh world twice persists two materialized Messages, not one — there is no
guard read preventing re-materialization. -/
theorem redelivery_creates_second_message :
    (processAutoMessage (processAutoMessage consumerWorld samplePayload)
        samplePayload).messages.length = 2 ∧
    (processAutoMessage (processAutoMessage consumerWorld samplePayload)
        samplePayload).messages.length ≠ 1 := by
  constructor
  · rfl
  · decide

/-- C1 amended: delivering the same queue payload to the consumer handler
twice persists two materialized Messages (one per delivery — the `findById`
guard only checks existence and does not prevent a duplicate), while the
referenced scheduling record does end with `isSent = true`. -/
theorem redelivery_two_messages_and_sent (w : World) (p : QueuePayload)
    (am : AutoMessage) (h : lookupAuto w p.autoMessageId = some am) :
    (processAutoMessage (processAutoMessage w p) p).messages.length =
      w.messages.length + 2 ∧
    ∃ am2, lookupAuto (processAutoMessage (processAutoMessage w p) p)
        p.autoMessageId = some am2 ∧ am2.isSent = true := by
  obtain ⟨hlen1, hlook1⟩ := processAutoMessage_found w p am h
  obtain ⟨hlen2, hlook2⟩ := processAutoMessage_found (processAutoMessage w p) p _ hlook1
  refine ⟨by omega, ⟨_, hlook2, rfl⟩⟩

/-- Witness: the amended redelivery theorem applied to the concrete world
holding queued record 1. -/
theorem redelivery_two_messages_and_sent_witness :
    (processAutoMessage (processAutoMessage consumerWorld samplePayload)
        samplePayload).messages.length = consumerWorld.messages.length + 2 ∧
    ∃ am2, lookupAuto (processAutoMessage (processAutoMessage consumerWorld
        samplePayload) samplePayload) samplePayload.autoMessageId =
      some am2 ∧ am2.isSent = true :=
  redelivery_two_messages_and_sent consumerWorld samplePayload queuedRecord rfl

/-- C3 counterexample: record 1 has already reached the retry bound
(`retryCount = 3`), yet it is not left in the Pending state — `isQueued`
is still `true` (`Queued` by the code's own `getStatistics` classification)
— and it does receive a further delivery attempt: the failing consume nacks
with requeue, the payload stays queued, and `retryCount` grows to 4. -/
theorem consumer_failure_leaves_queued_and_redelivers :
    exhaustedRecord.retryCount = 3 ∧
    exhaustedRecord.isQueued = true ∧
    (queueStep [samplePayload] exhaustedWorld (some "db down")).1 =
      [samplePayload] ∧
    lookupAuto (queueStep [samplePayload] exhaustedWorld (some "db down")).2 1 =
      some { exhaustedRecord with retryCount := 4, error := some "db down" } := by
  refine ⟨rfl, rfl, rfl, by decide⟩

/-- C3 amended: on every delivery attempt in which the handler raises before
the final `Sent` transition, the catch block increments the existing
scheduling record's `retryCount` by one and records the failure reason, and
the message is nacked with `requeue = true` so it stays queued; the record
keeps its `isQueued`/`isSent` flags (it is left `Queued`, not `Pending`),
and the requeue is unconditional, so reaching `retryCount = 3` does not stop
further delivery attempts. -/
theorem consumer_failure_increments_and_requeues (w : World) (p : QueuePayload)
    (e : String) (q : List QueuePayload) (am : AutoMessage)
    (h : lookupAuto w p.autoMessageId = some am) :
    (consumeStep w p (some e)).2 = DeliveryResult.nackRequeue ∧
    lookupAuto (consumeStep w p (some e)).1 p.autoMessageId =
      some (incrementRetry am (some e)) ∧
    (incrementRetry am (some e)).retryCount = am.retryCount + 1 ∧
    (incrementRetry am (some e)).error = some e ∧
    (incrementRetry am (some e)).isQueued = am.isQueued ∧
    (incrementRetry am (some e)).isSent = am.isSent ∧
    (queueStep (p :: q) w (some e)).1 = p :: q := by
  unfold lookupAuto at h
  refine ⟨rfl, ?_, rfl, rfl, rfl, rfl, rfl⟩
  simp only [consumeStep, handleProcessingError, lookupAuto, setAuto, h]
  exact findAuto_setAutoL_self w.autoMessages p.autoMessageId _ am h

/-- Witness: the amended failure-handling theorem applied to the concrete
world holding queued record 1. -/
theorem consumer_failure_increments_and_requeues_witness :
    (consumeStep consumerWorld samplePayload (some "boom")).2 =
      DeliveryResult.nackRequeue ∧
    lookupAuto (consumeStep consumerWorld samplePayload (some "boom")).1
        samplePayload.autoMessageId =
      some (incrementRetry queuedRecord (some "boom")) ∧
    (incrementRetry queuedRecord (some "boom")).retryCount =
      queuedRecord.retryCount + 1 ∧
    (incrementRetry queuedRecord (some "boom")).error = some "boom" ∧
    (incrementRetry queuedRecord (some "boom")).isQueued =
      queuedRecord.isQueued ∧
    (incrementRetry queuedRecord (some "boom")).isSent = queuedRecord.isSent ∧
    (queueStep [samplePayload] consumerWorld (some "boom")).1 =
      [samplePayload] :=
  consumer_failure_increments_and_requeues consumerWorld samplePayload
    "boom" [] queuedRecord rfl

/-- C9: a payload whose `autoMessageId` matches no stored scheduling record
is still fully processed: a new Message is persisted (with `messageType`
"auto"), some conversation carries the new message id as its last activity,
the AutoMessage collection is untouched (the mark-as-sent write is skipped),
and the delivery is acknowledged. -/
theorem processAutoMessage_missing_record_spec (w : World) (p : QueuePayload)
    (h : lookupAuto w p.autoMessageId = none) :
    (consumeStep w p none).2 = DeliveryResult.ack ∧
    (consumeStep w p none).1.autoMessages = w.autoMessages ∧
    (consumeStep w p none).1.messages =
      w.messages ++
        [{ id := w.nextMessageId, sender := p.senderId, receiver := p.receiverId,
           conversation := (findOrCreateConversation w.convStore w.now
             p.senderId p.receiverId).1.id,
           content := p.content, messageType := "auto" }] ∧
    ∃ c ∈ (consumeStep w p none).1.convStore.conversations,
      c.lastMessage = some w.nextMessageId ∧ c.lastActivity = w.now := by
  unfold lookupAuto at h
  simp only [consumeStep, processAutoMessage, lookupAuto, setAuto]
  rw [show ({ w with
      convStore := saveConversation
        (findOrCreateConversation w.convStore w.now p.senderId p.receiverId).2
        (updateLastActivity
          (findOrCreateConversation w.convStore w.now p.senderId p.receiverId).1
          w.now (some w.nextMessageId)),
      messages := w.messages ++
        [{ id := w.nextMessageId, sender := p.senderId, receiver := p.receiverId,
           conversation := (findOrCreateConversation w.convStore w.now
             p.senderId p.receiverId).1.id,
           content := p.content, messageType := "auto" }],
      nextMessageId := w.nextMessageId + 1 } : World).autoMessages
    = w.autoMessages from rfl, h]
  refine ⟨by trivial, by trivial, by trivial, ?_⟩
  refine ⟨updateLastActivity
      (findOrCreateConversation w.convStore w.now p.senderId p.receiverId).1
      w.now (some w.nextMessageId), ?_, rfl, rfl⟩
  exact saveConversation_mem _ _ _
    (findOrCreateConversation_mem w.convStore w.now p.senderId p.receiverId) rfl

/-- Witness: the missing-record theorem applied to a payload referencing the
absent record 2. -/
theorem processAutoMessage_missing_record_spec_witness :
    (consumeStep consumerWorld missingPayload none).2 = DeliveryResult.ack ∧
    (consumeStep consumerWorld missingPayload none).1.autoMessages =
      consumerWorld.autoMessages ∧
    (consumeStep consumerWorld missingPayload none).1.messages =
      consumerWorld.messages ++
        [{ id := consumerWorld.nextMessageId,
           sender := missingPayload.senderId,
           receiver := missingPayload.receiverId,
           conversation := (findOrCreateConversation consumerWorld.convStore
             consumerWorld.now missingPayload.senderId
             missingPayload.receiverId).1.id,
           content := missingPayload.content, messageType := "auto" }] ∧
    ∃ c ∈ (consumeStep consumerWorld missingPayload none).1.convStore.conversations,
      c.lastMessage = some consumerWorld.nextMessageId ∧
      c.lastActivity = consumerWorld.now :=
  processAutoMessage_missing_record_spec consumerWorld missingPayload rfl

/-- The conversation `findOne` predicate is symmetric in the two users. -/
theorem findConversation_symm (db : List Conversation) (u1 u2 : Nat) :
    findConversation db u1 u2 = findConversation db u2 u1 := by
  unfold findConversation
  congr 1
  funext c
  cases c.participants.contains u1 <;> cases c.participants.contains u2 <;> simp

/-- When nothing in a list matches a predicate, searching the list with one
matching element appended finds that element. -/
theorem find_in_appended_singleton {α : Type} (p : α → Bool) (l : List α)
    (c : α) (h : List.find? p l = none) (hc : p c = true) :
    List.find? p (l ++ [c]) = some c := by
  induction l with
  | nil => simp [List.find?, hc]
  | cons d rest ih =>
    rw [List.cons_append]
    cases hd : p d with
    | true =>
      rw [List.find?_cons_of_pos _ hd] at h
      exact absurd h (by simp)
    | false =>
      rw [List.find?_cons_of_neg _ (by simp [hd])] at h
      rw [List.find?_cons_of_neg _ (by simp [hd])]
      exact ih h

/-- When nothing in the collection matches, the `findOne` after appending a
matching document returns that document. -/
theorem findConversation_append_single (db : List Conversation)
    (c : Conversation) (u1 u2 : Nat) (h : findConversation db u1 u2 = none)
    (hc : (c.participants.contains u1 && c.participants.contains u2 &&
      c.isActive) = true) :
    findConversation (db ++ [c]) u1 u2 = some c := by
  unfold findConversation at *
  exact find_in_appended_singleton _ db c h hc

/-- C5 counterexample: two overlapping `findOrCreateConversation` calls for
the unordered pair of users 1 and 2 (the second call with its arguments
swapped), interleaved so that both `findOne` reads precede both creates,
leave the store with two distinct active conversations for that pair. -/
theorem concurrent_findOrCreate_duplicates :
    countActivePair
      (raceFindOrCreate { conversations := [], nextConvId := 0 } 5 1 2 2 1)
      1 2 = 2 := by
  decide

/-- C5 amended: sequentially, `findOrCreateConversation` is order-independent
and convergent — the calls for (A,B) and (B,A) against the same store resolve
to the same conversation id, and a second call for the same pair returns the
conversation of the first call without changing the store; however, two
overlapping calls whose reads precede the creates can create two active
conversations for the pair, as the source has no unique index or atomic
upsert on the participant pair. -/
theorem findOrCreateConversation_sequential_spec (s : ConvStore)
    (now now2 A B : Nat) :
    (findOrCreateConversation s now A B).1.id =
      (findOrCreateConversation s now B A).1.id ∧
    (findOrCreateConversation
        ((findOrCreateConversation s now A B).2) now2 A B).1.id =
      (findOrCreateConversation s now A B).1.id ∧
    (findOrCreateConversation
        ((findOrCreateConversation s now A B).2) now2 A B).2 =
      (findOrCreateConversation s now A B).2 := by
  cases hfc : findConversation s.conversations A B with
  | some c =>
    have hsym : findConversation s.conversations B A = some c := by
      rw [← findConversation_symm, hfc]
    have e1 : ∀ t, findOrCreateConversation s t A B = (c, s) := by
      intro t
      unfold findOrCreateConversation
      rw [hfc]
    have e2 : findOrCreateConversation s now B A = (c, s) := by
      unfold findOrCreateConversation
      rw [hsym]
    refine ⟨?_, ?_, ?_⟩
    · rw [e1 now, e2]
    · rw [e1 now, show ((c, s) : Conversation × ConvStore).2 = s from rfl,
        e1 now2]
    · rw [e1 now, show ((c, s) : Conversation × ConvStore).2 = s from rfl,
        e1 now2]
  | none =>
    have hsym : findConversation s.conversations B A = none := by
      rw [← findConversation_symm, hfc]
    have e1 : findOrCreateConversation s now A B =
        createConversation s now A B := by
      unfold findOrCreateConversation
      rw [hfc]
    have e2 : findOrCreateConversation s now B A =
        createConversation s now B A := by
      unfold findOrCreateConversation
      rw [hsym]
    have hfind2 : findConversation
        (createConversation s now A B).2.conversations A B =
        some (createConversation s now A B).1 := by
      have hconvs : (createConversation s now A B).2.conversations
          = s.conversations ++ [(createConversation s now A B).1] := rfl
      rw [hconvs]
      exact findConversation_append_single s.conversations _ A B hfc
        (by simp [createConversation])
    have e3 : findOrCreateConversation
        ((createConversation s now A B).2) now2 A B =
        ((createConversation s now A B).1, (createConversation s now A B).2) := by
      unfold findOrCreateConversation
      rw [hfind2]
    refine ⟨?_, ?_, ?_⟩
    · rw [e1, e2]
      exact rfl
    · rw [e1, e3]
    · rw [e1, e3]

/-- The pair loop produces one pair per two users. -/
theorem collectPairs_length {α : Type} : ∀ (l : List α),
    (collectPairs l).length = l.length / 2
  | [] => by
    show 0 = 0 / 2
    omega
  | [_] => by
    show 0 = 1 / 2
    omega
  | _ :: _ :: rest => by
    show (collectPairs rest).length + 1 = (rest.length + 1 + 1) / 2
    rw [collectPairs_length rest]
    omega

/-- With an even number of users the pair loop mentions every user once, in
order. -/
theorem pairElems_collectPairs_even {α : Type} : ∀ (l : List α),
    l.length % 2 = 0 → pairElems (collectPairs l) = l
  | [], _ => rfl
  | [_], h => by simp at h
  | a :: b :: rest, h => by
    have hr : rest.length % 2 = 0 := by simp at h; omega
    show a :: b :: pairElems (collectPairs rest) = a :: b :: rest
    rw [pairElems_collectPairs_even rest hr]

/-- With an odd number of users the pair loop mentions every user but the
last, in order. -/
theorem pairElems_collectPairs_odd {α : Type} : ∀ (l : List α),
    l.length % 2 = 1 → pairElems (collectPairs l) = l.dropLast
  | [], h => by simp at h
  | [_], _ => rfl
  | a :: b :: rest, h => by
    have hr : rest.length % 2 = 1 := by simp at h; omega
    show a :: b :: pairElems (collectPairs rest) = (a :: b :: rest).dropLast
    rw [pairElems_collectPairs_odd rest hr]
    cases rest with
    | nil => simp at hr
    | cons c r2 => rfl

/-- On a duplicate-free user list the pair loop only forms pairs of distinct
users. -/
theorem collectPairs_ne : ∀ (l : List Nat), l.Nodup →
    ∀ p ∈ collectPairs l, p.1 ≠ p.2
  | [], _, p, hp => by simp [collectPairs] at hp
  | [_], _, p, hp => by simp [collectPairs] at hp
  | a :: b :: rest, hnd, p, hp => by
    rw [List.nodup_cons] at hnd
    obtain ⟨ha, hnd2⟩ := hnd
    rw [List.nodup_cons] at hnd2
    obtain ⟨hb, hndr⟩ := hnd2
    have hp2 : p = (a, b) ∨ p ∈ collectPairs rest := by
      simpa [collectPairs] using hp
    rcases hp2 with rfl | hp2
    · intro he
      simp only at he
      exact ha (by rw [he]; exact List.mem_cons_self b rest)
    · exact collectPairs_ne rest hndr p hp2

/-- When every pair has distinct components, the number of pairs mentioning
a user equals the number of times the user occurs among all pair elements. -/
theorem pairCount_eq_count : ∀ (ps : List (Nat × Nat)),
    (∀ p ∈ ps, p.1 ≠ p.2) → ∀ u, pairCount u ps = List.count u (pairElems ps)
  | [], _, _ => rfl
  | p :: rest, hne, u => by
    have hp := hne p (List.mem_cons_self p rest)
    have ih := pairCount_eq_count rest
      (fun q hq => hne q (List.mem_cons_of_mem p hq)) u
    by_cases h1 : p.1 = u <;> by_cases h2 : p.2 = u
    · exact absurd (h1.trans h2.symm) hp
    all_goals
      simp only [pairCount, pairElems, List.filter_cons, List.count_cons] at *
      simp [h1, h2, ih]

/-- Pair counts add over list append. -/
theorem pairCount_append (u : Nat) (ps qs : List (Nat × Nat)) :
    pairCount u (ps ++ qs) = pairCount u ps + pairCount u qs := by
  simp [pairCount, List.filter_append]

/-- With an even user count `buildPairs` is just the pair loop. -/
theorem buildPairs_even {α : Type} (l : List α) (h : l.length % 2 = 0) :
    buildPairs l = collectPairs l := by
  simp only [buildPairs]
  rw [if_neg (by omega)]

/-- With an odd user count `buildPairs` appends the wrap-around pair of the
last and the first user. -/
theorem buildPairs_odd {α : Type} (l : List α) (lastU firstU : α)
    (hl : l.getLast? = some lastU) (hh : l.head? = some firstU)
    (h : l.length % 2 = 1) :
    buildPairs l = collectPairs l ++ [(lastU, firstU)] := by
  simp only [buildPairs]
  rw [hl, hh, if_pos (by omega)]

/-- The first and last element of a duplicate-free list of length at least 2
are distinct. -/
theorem head_ne_last_of_nodup (l : List Nat) (hnd : l.Nodup)
    (h2 : 2 ≤ l.length) (firstU lastU : Nat) (hh : l.head? = some firstU)
    (hl : l.getLast? = some lastU) : firstU ≠ lastU := by
  cases l with
  | nil => simp at hh
  | cons a rest =>
    cases rest with
    | nil => simp at h2
    | cons b r2 =>
      have hfa : firstU = a := by
        have := hh
        simp only [List.head?] at this
        exact (Option.some.inj this).symm
      have hl2 : (b :: r2).getLast? = some lastU := by
        rw [← List.getLast?_cons_cons]
        exact hl
      have hmem : lastU ∈ b :: r2 := by
        obtain ⟨hne, heq⟩ := List.mem_getLast?_eq_getLast
          (Option.mem_def.mpr hl2)
        rw [heq]
        exact List.getLast_mem hne
      rw [List.nodup_cons] at hnd
      intro he
      rw [hfa] at he
      rw [he] at hnd
      exact hnd.1 hmem

/-- Every pair built from a duplicate-free list of length at least 2 has
distinct components. -/
theorem buildPairs_ne (l : List Nat) (hnd : l.Nodup) (h2 : 2 ≤ l.length) :
    ∀ p ∈ buildPairs l, p.1 ≠ p.2 := by
  rcases Nat.mod_two_eq_zero_or_one l.length with h | h
  · rw [buildPairs_even l h]
    exact collectPairs_ne l hnd
  · have hne : l ≠ [] := by
      intro he
      rw [he] at h2
      simp at h2
    obtain ⟨lastU, hl⟩ : ∃ x, l.getLast? = some x :=
      ⟨l.getLast hne, List.getLast?_eq_getLast_of_ne_nil hne⟩
    obtain ⟨firstU, hh⟩ : ∃ x, l.head? = some x := by
      cases l with
      | nil => exact absurd rfl hne
      | cons a rest => exact ⟨a, rfl⟩
    rw [buildPairs_odd l lastU firstU hl hh h]
    intro p hp
    rcases List.mem_append.mp hp with hp2 | hp2
    · exact collectPairs_ne l hnd p hp2
    · have hpe : p = (lastU, firstU) := by simpa using hp2
      rw [hpe]
      exact (head_ne_last_of_nodup l hnd h2 firstU lastU hh hl).symm

/-- Record construction preserves the number of pairs. -/
theorem toRecords_length (contentOf : Nat → String) (sendDateOf : Nat → Nat)
    (createdAt : Nat) : ∀ (i : Nat) (ps : List (Nat × Nat)),
    (toRecords contentOf sendDateOf createdAt i ps).length = ps.length
  | _, [] => rfl
  | i, _ :: rest => by
    show (toRecords contentOf sendDateOf createdAt (i + 1) rest).length + 1 = _
    rw [toRecords_length contentOf sendDateOf createdAt (i + 1) rest]
    rfl

/-- A user appears in as many records as in the underlying pairs. -/
theorem appearCount_toRecords (contentOf : Nat → String)
    (sendDateOf : Nat → Nat) (createdAt : Nat) (u : Nat) :
    ∀ (i : Nat) (ps : List (Nat × Nat)),
    appearCount u (toRecords contentOf sendDateOf createdAt i ps) =
      pairCount u ps
  | _, [] => rfl
  | i, p :: rest => by
    have ih := appearCount_toRecords contentOf sendDateOf createdAt u
      (i + 1) rest
    simp only [toRecords, appearCount, pairCount, List.filter_cons] at *
    by_cases h1 : p.1 = u <;> by_cases h2 : p.2 = u <;> simp [h1, h2, ih]

/-- Sender and receiver of every produced record come from some pair. -/
theorem toRecords_mem (contentOf : Nat → String) (sendDateOf : Nat → Nat)
    (createdAt : Nat) : ∀ (i : Nat) (ps : List (Nat × Nat)) (m : AutoMessage),
    m ∈ toRecords contentOf sendDateOf createdAt i ps →
    ∃ p, p ∈ ps ∧ m.sender = p.1 ∧ m.receiver = p.2
  | _, [], m, hm => by simp [toRecords] at hm
  | i, p :: rest, m, hm => by
    simp only [toRecords, List.mem_cons] at hm
    rcases hm with rfl | hm
    · exact ⟨p, List.mem_cons_self p rest, rfl, rfl⟩
    · obtain ⟨q, hq, hq1, hq2⟩ :=
        toRecords_mem contentOf sendDateOf createdAt (i + 1) rest m hm
      exact ⟨q, List.mem_cons_of_mem p hq, hq1, hq2⟩

/-- Record construction maps an appended pair to an appended record. -/
theorem toRecords_append (contentOf : Nat → String) (sendDateOf : Nat → Nat)
    (createdAt : Nat) : ∀ (ps : List (Nat × Nat)) (p : Nat × Nat) (i : Nat),
    toRecords contentOf sendDateOf createdAt i (ps ++ [p]) =
      toRecords contentOf sendDateOf createdAt i ps ++
        [{ sender := p.1, receiver := p.2,
           content := contentOf (i + ps.length),
           sendDate := sendDateOf (i + ps.length), createdAt := createdAt }]
  | [], p, i => by simp [toRecords]
  | q :: rest, p, i => by
    have ih := toRecords_append contentOf sendDateOf createdAt rest p (i + 1)
    have he : i + 1 + rest.length = i + (rest.length + 1) := by omega
    rw [he] at ih
    simp only [List.cons_append, toRecords, List.length_cons]
    rw [show List.append rest [p] = rest ++ [p] from rfl, ih]

/-- The number of pairs mentioning a user, even user count: on a
duplicate-free list every listed user is mentioned exactly once. -/
theorem pairCount_buildPairs_even (l : List Nat) (hnd : l.Nodup)
    (h : l.length % 2 = 0) (u : Nat) (hu : u ∈ l) :
    pairCount u (buildPairs l) = 1 := by
  rw [buildPairs_even l h, pairCount_eq_count _ (collectPairs_ne l hnd),
    pairElems_collectPairs_even l h]
  exact List.count_eq_one_of_mem hnd hu

/-- The number of pairs mentioning a user, odd user count: every listed user
is mentioned once, plus once more for the first user (the wrap-around). -/
theorem pairCount_buildPairs_odd (l : List Nat) (hnd : l.Nodup)
    (h : l.length % 2 = 1) (h2 : 2 ≤ l.length) (firstU lastU : Nat)
    (hh : l.head? = some firstU) (hl : l.getLast? = some lastU)
    (u : Nat) (hu : u ∈ l) :
    pairCount u (buildPairs l) = 1 + (if firstU = u then 1 else 0) := by
  have hne : firstU ≠ lastU :=
    head_ne_last_of_nodup l hnd h2 firstU lastU hh hl
  rw [buildPairs_odd l lastU firstU hl hh h, pairCount_append,
    pairCount_eq_count _ (collectPairs_ne l hnd),
    pairElems_collectPairs_odd l h]
  have hsplit : List.count u l.dropLast + List.count u [lastU] =
      List.count u l := by
    conv_rhs => rw [← List.dropLast_append_getLast? lastU
      (Option.mem_def.mpr hl)]
    rw [List.count_append]
  have hcl : List.count u l = 1 := List.count_eq_one_of_mem hnd hu
  by_cases ha : lastU = u <;> by_cases hb : firstU = u
  · exact absurd (hb.trans ha.symm) hne
  · have hCU : List.count u [lastU] = 1 := by
      rw [ha]
      exact List.count_singleton_self u
    have hA : List.count u l.dropLast = 0 := by omega
    have hw : pairCount u [(lastU, firstU)] = 1 := by
      simp [pairCount, ha]
    rw [hA, hw]
    simp [hb]
  · have hCU : List.count u [lastU] = 0 := by
      rw [List.count_singleton]
      simp [ha]
    have hA : List.count u l.dropLast = 1 := by omega
    have hw : pairCount u [(lastU, firstU)] = 1 := by
      simp [pairCount, ha, hb]
    rw [hA, hw]
    simp [hb]
  · have hCU : List.count u [lastU] = 0 := by
      rw [List.count_singleton]
      simp [ha]
    have hA : List.count u l.dropLast = 1 := by omega
    have hw : pairCount u [(lastU, firstU)] = 0 := by
      simp [pairCount, ha, hb]
    rw [hA, hw]
    simp [hb]

/-- C6: for every permutation of an active-user set of size N — a
duplicate-free user list — the planner creates exactly ⌈N/2⌉ = (N+1)/2
scheduling records, each with sender ≠ receiver; when N is even every user
appears in exactly one record; when N is odd the first user of the
permutation appears in exactly two records, every other user in exactly one,
and the final record is the wrap-around pair of the last and first user;
with fewer than 2 users no records are created. -/
theorem createAutoMessages_pairing_spec (users : List Nat)
    (contentOf : Nat → String) (sendDateOf : Nat → Nat) (now : Nat)
    (hnd : users.Nodup) :
    (users.length < 2 →
      createAutoMessages users contentOf sendDateOf now = []) ∧
    (2 ≤ users.length →
      (createAutoMessages users contentOf sendDateOf now).length =
        (users.length + 1) / 2 ∧
      (∀ m ∈ createAutoMessages users contentOf sendDateOf now,
        m.sender ≠ m.receiver) ∧
      (users.length % 2 = 0 → ∀ u ∈ users,
        appearCount u (createAutoMessages users contentOf sendDateOf now) = 1) ∧
      (users.length % 2 = 1 →
        ∃ firstU lastU, users.head? = some firstU ∧
          users.getLast? = some lastU ∧
          appearCount firstU
            (createAutoMessages users contentOf sendDateOf now) = 2 ∧
          (∀ u ∈ users, u ≠ firstU →
            appearCount u
              (createAutoMessages users contentOf sendDateOf now) = 1) ∧
          ∃ m, (createAutoMessages users contentOf sendDateOf now).getLast? =
            some m ∧ m.sender = lastU ∧ m.receiver = firstU)) := by
  constructor
  · intro h
    unfold createAutoMessages
    rw [if_pos h]
  · intro h2
    have hguard : createAutoMessages users contentOf sendDateOf now =
        toRecords contentOf sendDateOf now 0 (buildPairs users) := by
      unfold createAutoMessages
      rw [if_neg (by omega)]
    have hnonempty : users ≠ [] := by
      intro he
      rw [he] at h2
      simp at h2
    obtain ⟨lastU, hl⟩ : ∃ x, users.getLast? = some x :=
      ⟨users.getLast hnonempty, List.getLast?_eq_getLast_of_ne_nil hnonempty⟩
    obtain ⟨firstU, hh⟩ : ∃ x, users.head? = some x := by
      cases users with
      | nil => exact absurd rfl hnonempty
      | cons a rest => exact ⟨a, rfl⟩
    refine ⟨?_, ?_, ?_, ?_⟩
    · rw [hguard, toRecords_length]
      rcases Nat.mod_two_eq_zero_or_one users.length with hp | hp
      · rw [buildPairs_even users hp, collectPairs_length]
        omega
      · rw [buildPairs_odd users lastU firstU hl hh hp, List.length_append,
          collectPairs_length]
        simp only [List.length_cons, List.length_nil]
        omega
    · rw [hguard]
      intro m hm
      obtain ⟨p, hp, hs, hr⟩ := toRecords_mem contentOf sendDateOf now 0 _ m hm
      rw [hs, hr]
      exact buildPairs_ne users hnd h2 p hp
    · intro hp u hu
      rw [hguard, appearCount_toRecords]
      exact pairCount_buildPairs_even users hnd hp u hu
    · intro hp
      have hfm : firstU ∈ users := by
        cases users with
        | nil => exact absurd rfl hnonempty
        | cons a rest =>
          rw [← Option.some.inj hh]
          exact List.mem_cons_self a rest
      refine ⟨firstU, lastU, hh, hl, ?_, ?_, ?_⟩
      · rw [hguard, appearCount_toRecords,
          pairCount_buildPairs_odd users hnd hp h2 firstU lastU hh hl
            firstU hfm]
        simp
      · intro u hu hune
        rw [hguard, appearCount_toRecords,
          pairCount_buildPairs_odd users hnd hp h2 firstU lastU hh hl u hu,
          if_neg (fun he => hune he.symm)]
      · rw [hguard, buildPairs_odd users lastU firstU hl hh hp,
          toRecords_append]
        refine ⟨{ sender := lastU, receiver := firstU,
                  content := contentOf (0 + (collectPairs users).length),
                  sendDate := sendDateOf (0 + (collectPairs users).length),
                  createdAt := now }, ?_, rfl, rfl⟩
        rw [List.getLast?_append_cons]
        rfl

/-- Witness: the pairing theorem applied to the three-user permutation
[10, 20, 30]: two records, the first user in two of them, user 20 in one. -/
theorem createAutoMessages_pairing_spec_witness :
    (createAutoMessages [10, 20, 30] (fun _ => "Hey!") (fun _ => 5000)
        0).length = 2 ∧
    appearCount 10
      (createAutoMessages [10, 20, 30] (fun _ => "Hey!") (fun _ => 5000) 0) = 2 ∧
    appearCount 20
      (createAutoMessages [10, 20, 30] (fun _ => "Hey!") (fun _ => 5000) 0) = 1 := by
  have h := createAutoMessages_pairing_spec [10, 20, 30] (fun _ => "Hey!")
    (fun _ => 5000) 0 (by decide)
  obtain ⟨-, hbig⟩ := h
  obtain ⟨hlen, -, -, hodd⟩ := hbig (by decide)
  obtain ⟨firstU, lastU, hh, hl, hfc, hoth, -⟩ := hodd (by decide)
  have hf : firstU = 10 := (Option.some.inj hh).symm
  rw [hf] at hfc hoth
  exact ⟨by rw [hlen]; decide, hfc, hoth 20 (by decide) (by decide)⟩

/-- Witness: the sweep spec at day 40 on a store holding `sentRecord`
(created at time 0, hence 40 days old and sent — deleted) and `queuedRecord`
(not sent — retained). -/
theorem cleanupOldMessages_spec_witness :
    sentRecord ∉ cleanupOldMessages [sentRecord, queuedRecord] (40 * msPerDay) ∧
    queuedRecord ∈ cleanupOldMessages [sentRecord, queuedRecord] (40 * msPerDay) :=
  ⟨(cleanupOldMessages_spec [sentRecord, queuedRecord] (40 * msPerDay)
      sentRecord).2.1 (by decide) rfl (by decide),
   (cleanupOldMessages_spec [sentRecord, queuedRecord] (40 * msPerDay)
      queuedRecord).2.2.2 (by decide) rfl⟩

end Nodelabs
